import Mathlib

/-!
Verification of the incremental file-backup daemon (src/main.py).

Paths are modelled in canonical segment form: an absolute filesystem path
such as /var/log is the list of its components ["var", "log"].  This is
the representation on which os.path.commonpath operates (it compares
whole components, not characters), and every path handled by the
relevant code has been canonicalised by os.path.realpath first.
-/

namespace Backupd

/-- A canonical absolute path, as its list of components. -/
abbrev FPath := List String

/-! ## PathResolver (src/main.py: not_included_in_other_directories,
get_filtered_files_list) -/

/-- os.path.commonpath of two canonical absolute paths: their longest
common component prefix. -/
def commonpath : FPath → FPath → FPath
  | a :: p, b :: q => if a = b then a :: commonpath p q else []
  | _, _ => []

/-- src/main.py lines 149-163: returns False iff some *other* path in the
list is such that os.path.commonpath([path, other]) == other, i.e. some
other listed path is an ancestor of this one. -/
def not_included_in_other_directories (path : FPath) (l : List FPath) : Bool :=
  l.all (fun other => path == other || !(commonpath path other == other))

/-- src/main.py lines 197-200, inside get_filtered_files_list: the
redundancy-elimination pass keeps each existing path only when
not_included_in_other_directories holds against the whole collection. -/
def pre_filtered_paths (s : List FPath) : List FPath :=
  s.filter (fun p => not_included_in_other_directories p s)

theorem commonpath_isPre : ∀ p q : FPath, commonpath p q <+: p
  | [], _ => by simp [commonpath]
  | _ :: _, [] => by simp [commonpath]
  | a :: p, b :: q => by
    by_cases h : a = b
    · subst h
      have h := commonpath_isPre p q
      simp only [commonpath, if_pos rfl]
      exact List.cons_prefix_cons.mpr ⟨rfl, h⟩
    · simp [commonpath, h]

theorem commonpath_of_pre : ∀ p q : FPath, q <+: p → commonpath p q = q
  | _, [], _ => by simp [commonpath]
  | [], _ :: _, h => by simp at h
  | a :: p, b :: q, h => by
    obtain ⟨hb, hq⟩ := by simpa [ List.cons_prefix_cons] using h
    subst hb
    simp [commonpath, commonpath_of_pre p q hq]

theorem commonpath_eq_iff (p q : FPath) : commonpath p q = q ↔ q <+: p := by
  constructor
  · intro h
    have := commonpath_isPre p q
    rwa [h] at this
  · exact commonpath_of_pre p q

theorem not_included_iff (p : FPath) (l : List FPath) :
    not_included_in_other_directories p l = true ↔
      ∀ q ∈ l, q ≠ p → ¬ q <+: p := by
  simp only [not_included_in_other_directories, List.all_eq_true, Bool.or_eq_true,
    beq_iff_eq, Bool.not_eq_true', beq_eq_false_iff_ne, ne_eq]
  constructor
  · intro h q hq hne hpre
    rcases h q hq with h' | h'
    · exact hne h'.symm
    · exact h' ((commonpath_eq_iff p q).mpr hpre)
  · intro h q hq
    by_cases hpq : p = q
    · exact Or.inl hpq
    · refine Or.inr fun hc => ?_
      exact h q hq (fun e => hpq e.symm) ((commonpath_eq_iff p q).mp hc)

theorem mem_pre_filtered (p : FPath) (s : List FPath) :
    p ∈ pre_filtered_paths s ↔ p ∈ s ∧ ∀ q ∈ s, q ≠ p → ¬ q <+: p := by
  simp [pre_filtered_paths, List.mem_filter, not_included_iff]

/-- A strict ancestor of a path inside a collection has a strict ancestor
(possibly itself) that survives redundancy elimination: pick one of
minimal length. -/
theorem exists_surviving_ancestor (s : List FPath) (p : FPath) :
    ∀ q ∈ s, q ≠ p → q <+: p →
      ∃ r ∈ pre_filtered_paths s, r ≠ p ∧ r <+: p := by
  suffices h : ∀ n : ℕ, ∀ q ∈ s, q.length = n → q ≠ p → q <+: p →
      ∃ r ∈ pre_filtered_paths s, r ≠ p ∧ r <+: p by
    intro q hq hne hpre
    exact h q.length q hq rfl hne hpre
  intro n
  induction n using Nat.strong_induction_on with
  | _ n ih =>
    intro q hq hlen hne hpre
    by_cases hs : not_included_in_other_directories q s = true
    · exact ⟨q, by simp [pre_filtered_paths, List.mem_filter, hq, hs], hne, hpre⟩
    · have : ¬ ∀ r ∈ s, r ≠ q → ¬ r <+: q := by
        rw [← not_included_iff]; simpa using hs
      push_neg at this
      obtain ⟨r, hrs, hrne, hrpre⟩ := this
      have hrlt : r.length < q.length := by
        rcases Nat.lt_or_ge r.length q.length with h | h
        · exact h
        · exact absurd (hrpre.eq_of_length (Nat.le_antisymm hrpre.length_le h)) hrne
      have hqlt : q.length < p.length := by
        rcases Nat.lt_or_ge q.length p.length with h | h
        · exact h
        · exact absurd (hpre.eq_of_length (Nat.le_antisymm hpre.length_le h)) hne
      have hrp : r <+: p := hrpre.trans hpre
      have hrnep : r ≠ p := by
        intro e
        subst e
        exact Nat.lt_irrefl _ (Nat.lt_trans hrlt hqlt)
      exact ih r.length (hlen ▸ hrlt) r hrs rfl hrnep hrp

/-! ## BackupEngine: one cycle of daemon_main (src/main.py lines 285-308)

The loop body, per file: compute the digest (calculate_checksum returns
None on a read/permission failure, in which case the file is skipped);
look the stored digest up with checksums.get(file_path, "0"); when they
differ, set checksums[file_path] to the fresh digest and THEN invoke
copy_file.  copy_file (lines 260-282) catches every exception internally
(directory destination, samefile, any I/O error) and only logs it, so the
checksum update stands whether or not the copy succeeded.  The hash
outcome per path is the oracle argument; the per-path copy outcome is the
copyOk oracle, which affects only which attempted copies succeed. -/

/-- The persisted checksum document: path to hex-digest associations. -/
abbrev ChecksumMap := List (FPath × String)

/-- Dictionary lookup in the checksum document. -/
def lookupCk : ChecksumMap → FPath → Option String
  | [], _ => none
  | (q, d) :: rest, p => if p = q then some d else lookupCk rest p

/-- Dictionary update checksums[p] = d. -/
def setCk : ChecksumMap → FPath → String → ChecksumMap
  | [], p, d => [(p, d)]
  | (q, e) :: rest, p, d =>
      if p = q then (q, d) :: rest else (q, e) :: setCk rest p d

/-- One iteration of the for-loop in daemon_main: returns the updated
checksum map together with the copy invocations made (at most one). -/
def cycleStep (hash : FPath → Option String) (cks : ChecksumMap)
    (p : FPath) : ChecksumMap × List FPath :=
  match hash p with
  | none => (cks, [])
  | some d =>
      let stored := (lookupCk cks p).getD "0"
      if d ≠ stored then (setCk cks p d, [p]) else (cks, [])

/-- The whole for-loop of one backup cycle, threading the in-memory
checksum map and recording every copy_file invocation in order; the map
returned is the one save_json_file persists at the end of the cycle. -/
def runCycle (hash : FPath → Option String) (files : List FPath)
    (cks : ChecksumMap) : ChecksumMap × List FPath :=
  match files with
  | [] => (cks, [])
  | p :: rest =>
      let s := cycleStep hash cks p
      let r := runCycle hash rest s.1
      (r.1, s.2 ++ r.2)

/-- The copy invocations that actually succeeded, given the per-path copy
outcome: copy_file logs and swallows a failure, so a failed attempt is
distinguished from a successful one only here. -/
def successfulCopies (copyOk : FPath → Bool) (attempts : List FPath) :
    List FPath :=
  attempts.filter copyOk

theorem lookupCk_setCk_self (m : ChecksumMap) (p : FPath) (d : String) :
    lookupCk (setCk m p d) p = some d := by
  induction m with
  | nil => simp [setCk, lookupCk]
  | cons hd tl ih =>
    obtain ⟨q, e⟩ := hd
    by_cases h : p = q <;> simp [setCk, lookupCk, h, ih]

theorem lookupCk_setCk_other (m : ChecksumMap) (p q : FPath) (d : String)
    (h : p ≠ q) : lookupCk (setCk m q d) p = lookupCk m p := by
  induction m with
  | nil => simp [setCk, lookupCk, h]
  | cons hd tl ih =>
    obtain ⟨r, e⟩ := hd
    by_cases hq : q = r
    · subst hq
      simp [setCk, lookupCk, h]
    · by_cases hp : p = r <;> simp [setCk, lookupCk, hq, hp, ih]

/-- After a cycle, every file that hashed successfully compares as
up to date against the returned map: the stored digest (with the "0"
sentinel for a missing entry) equals the fresh one — whether the file
was already up to date, was copied, or had its copy fail. -/
theorem runCycle_records (hash : FPath → Option String) :
    ∀ (files : List FPath) (cks : ChecksumMap) (p : FPath) (d : String),
      hash p = some d →
      (p ∈ files ∨ (lookupCk cks p).getD "0" = d) →
      (lookupCk (runCycle hash files cks).1 p).getD "0" = d := by
  intro files
  induction files with
  | nil =>
    intro cks p d _ hmem
    rcases hmem with h | h
    · simp at h
    · simpa [runCycle] using h
  | cons q rest ih =>
    intro cks p d hd hmem
    by_cases hpq : p = q
    · subst hpq
      refine ih _ p d hd (Or.inr ?_)
      simp only [cycleStep, hd]
      by_cases hdiff : d ≠ (lookupCk cks p).getD "0"
      · simp only [if_pos hdiff]
        simp [lookupCk_setCk_self cks p d]
      · simp only [if_neg hdiff]
        push_neg at hdiff
        exact hdiff.symm
    · rcases hmem with hmem | hmem
      · have : p ∈ rest := by
          rcases List.mem_cons.mp hmem with h | h
          · exact absurd h hpq
          · exact h
        exact ih _ p d hd (Or.inl this)
      · refine ih _ p d hd (Or.inr ?_)
        simp only [cycleStep]
        rcases hash q with _ | e
        · simpa using hmem
        · simp only
          by_cases hdiff : e ≠ (lookupCk cks q).getD "0"
          · simp only [if_pos hdiff]
            rw [lookupCk_setCk_other cks p q e hpq]
            exact hmem
          · simpa only [if_neg hdiff] using hmem

/-- A cycle over files whose digests all already match the stored ones
does nothing: the map is returned unchanged and no copy is invoked. -/
theorem runCycle_stable (hash : FPath → Option String) :
    ∀ (files : List FPath) (cks : ChecksumMap),
      (∀ p ∈ files, ∀ d, hash p = some d →
        (lookupCk cks p).getD "0" = d) →
      runCycle hash files cks = (cks, []) := by
  intro files
  induction files with
  | nil => intro cks _; rfl
  | cons q rest ih =>
    intro cks hall
    have hstep : cycleStep hash cks q = (cks, []) := by
      rcases hq : hash q with _ | d
      · simp [cycleStep, hq]
      · have := hall q (by simp) d hq
        simp [cycleStep, hq, this]
    simp only [runCycle, hstep]
    rw [ih cks fun p hp d hd => hall p (by simp [hp]) d hd]
    simp

/-- Running the cycle again on the map it produced, with unchanged file
digests, changes nothing and copies nothing. -/
theorem runCycle_idem (hash : FPath → Option String) (files : List FPath)
    (cks : ChecksumMap) :
    runCycle hash files (runCycle hash files cks).1 =
      ((runCycle hash files cks).1, []) :=
  runCycle_stable hash files _ fun p hp d hd =>
    runCycle_records hash files cks p d hd (Or.inl hp)

/-- C4: two consecutive cycles with no change to any source file (the same
per-path digest outcome): the second cycle invokes no copy at all and
returns the checksum document produced by the first cycle unchanged. -/
theorem C4_idempotent_cycles (hash : FPath → Option String)
    (files : List FPath) (cks : ChecksumMap) :
    runCycle hash files (runCycle hash files cks).1 =
      ((runCycle hash files cks).1, []) :=
  runCycle_idem hash files cks

/-- A real digest as produced by calculate_checksum (src/main.py lines
210-231): hashlib.md5(...).hexdigest() is always exactly 32 lowercase
hexadecimal characters. -/
def isMD5Hex (s : String) : Bool :=
  s.length == 32 && s.toList.all fun c => c.isDigit || (('a' ≤ c) && (c ≤ 'f'))

/-- C5: for a path with no checksum entry, checksums.get(path, "0")
returns the sentinel "0", which differs from every real 32-character
hex digest, so a first-seen file takes the changed branch: its entry is
set to the fresh digest and copy_file is invoked. -/
theorem C5_sentinel_forces_first_copy (hash : FPath → Option String)
    (cks : ChecksumMap) (p : FPath) (d : String)
    (hmiss : lookupCk cks p = none) (hdig : isMD5Hex d = true)
    (hh : hash p = some d) :
    (lookupCk cks p).getD "0" = "0" ∧ d ≠ "0" ∧
    cycleStep hash cks p = (setCk cks p d, [p]) := by
  have hne : d ≠ "0" := by
    intro h
    subst h
    exact absurd hdig (by decide)
  refine ⟨by rw [hmiss]; rfl, hne, ?_⟩
  simp [cycleStep, hh, hmiss, hne]

/-- C5 witness: a concrete empty checksum document and the digest of the
empty file; the sentinel comparison fires and the file is copied. -/
theorem C5_sentinel_forces_first_copy_witness :
    (lookupCk [] ["home", "u", "f.txt"]).getD "0" = "0" ∧
    "d41d8cd98f00b204e9800998ecf8427e" ≠ "0" ∧
    cycleStep (fun _ => some "d41d8cd98f00b204e9800998ecf8427e") []
        ["home", "u", "f.txt"] =
      (setCk [] ["home", "u", "f.txt"] "d41d8cd98f00b204e9800998ecf8427e",
        [["home", "u", "f.txt"]]) :=
  C5_sentinel_forces_first_copy (fun _ => some "d41d8cd98f00b204e9800998ecf8427e")
    [] ["home", "u", "f.txt"] "d41d8cd98f00b204e9800998ecf8427e"
    rfl (by decide) rfl

/-- The digest oracle for the C2 failing input: one watched file whose
content hashes successfully in both cycles. -/
def hashC2 : FPath → Option String :=
  fun p => if p = ["home", "user", "doc.txt"]
    then some "aaaabbbbccccddddeeeeffff00001111" else none

/-- C2: daemon_main sets checksums[file_path] to the fresh digest BEFORE
invoking copy_file, and copy_file swallows every failure, so at this
failing input — one changed file whose copy fails — cycle 1 makes the
attempt, the attempt fails, the persisted document nevertheless records
the new digest, and the next cycle makes no copy attempt at all: the
failed copy is never retried. -/
theorem C2_failed_copy_never_retried :
    (runCycle hashC2 [["home", "user", "doc.txt"]] []).2 =
      [["home", "user", "doc.txt"]] ∧
    successfulCopies (fun _ => false)
      (runCycle hashC2 [["home", "user", "doc.txt"]] []).2 = [] ∧
    lookupCk (runCycle hashC2 [["home", "user", "doc.txt"]] []).1
      ["home", "user", "doc.txt"] = some "aaaabbbbccccddddeeeeffff00001111" ∧
    (runCycle hashC2 [["home", "user", "doc.txt"]]
      (runCycle hashC2 [["home", "user", "doc.txt"]] []).1).2 = [] := by
  decide

/-! ## ConfigStore and ChecksumStore documents (src/main.py:
get_config_file lines 58-108, get_checksums_json lines 234-257,
update_sleep_interval lines 475-491) -/

/-- The observable state of an on-disk JSON document: missing, present
but not parseable (json.JSONDecodeError), or parsed to a value. -/
inductive Doc (α : Type) where
  | absent : Doc α
  | corrupt : Doc α
  | valid : α → Doc α
deriving DecidableEq

/-- src/main.py lines 27-37: strips every backslash from a path string. -/
def remove_escape_characters (path : String) : String :=
  String.mk (path.toList.filter fun c => c ≠ '\\')

/-- src/main.py lines 40-55: a Mac path is valid when, after stripping
backslashes, it starts with '/' and contains neither a backslash nor a
colon (the regex search for [\x5c:]). -/
def is_valid_mac_path (path : String) : Bool :=
  let p := remove_escape_characters path
  p.startsWith "/" && !(p.toList.any fun c => c = '\\' || c = ':')

/-- A parsed config document before field validation: each field is none
when it is missing or has the wrong JSON type. -/
structure RawConfig where
  interval : Option Int
  backup_destination : Option String
  items_to_backup : Option (List String)
deriving DecidableEq

/-- The validated config held in memory. -/
structure Config where
  interval : Int
  backup_destination : String
  items_to_backup : List String
deriving DecidableEq

/-- os.path.join(config_folder, 'backup/'): the default destination is
the backup/ subdirectory beside the config file. -/
def defaultDestination (configFolder : String) : String :=
  configFolder ++ "/backup/"

/-- The defaults written when the config file is missing
(src/main.py lines 95-104). -/
def defaultConfig (configFolder : String) : Config :=
  { interval := 300
    backup_destination := defaultDestination configFolder
    items_to_backup := [] }

/-- The field-by-field self-healing performed on a parsed config
(src/main.py lines 72-85): an absent, mistyped or negative interval
becomes 300; an absent, mistyped or invalid destination becomes the
default; a list with any invalid entry becomes empty. -/
def healConfig (configFolder : String) (r : RawConfig) : Config :=
  { interval :=
      match r.interval with
      | some i => if i < 0 then 300 else i
      | none => 300
    backup_destination :=
      match r.backup_destination with
      | some s => if is_valid_mac_path s then s else defaultDestination configFolder
      | none => defaultDestination configFolder
    items_to_backup :=
      match r.items_to_backup with
      | some l => if l.all is_valid_mac_path then l else []
      | none => [] }

/-- The raw document a validated config serialises back to. -/
def configToRaw (c : Config) : RawConfig :=
  { interval := some c.interval
    backup_destination := some c.backup_destination
    items_to_backup := some c.items_to_backup }

/-- get_config_file (src/main.py lines 58-108): a parse failure exits the
process with status 1; a missing file synthesises and persists the
defaults; a parsed file is healed field by field and the healed document
is rewritten in place.  Returns the in-memory config together with the
document now on disk. -/
def get_config_file (configFolder : String) :
    Doc RawConfig → Except Nat (Config × Doc RawConfig)
  | Doc.corrupt => Except.error 1
  | Doc.absent =>
      Except.ok (defaultConfig configFolder,
        Doc.valid (configToRaw (defaultConfig configFolder)))
  | Doc.valid r =>
      Except.ok (healConfig configFolder r,
        Doc.valid (configToRaw (healConfig configFolder r)))

/-- get_checksums_json (src/main.py lines 234-257): a parse failure exits
the process with status 1; a missing file initialises and persists an
empty mapping; a parsed mapping is returned as is (no rewrite). -/
def get_checksums_json :
    Doc ChecksumMap → Except Nat (ChecksumMap × Doc ChecksumMap)
  | Doc.corrupt => Except.error 1
  | Doc.absent => Except.ok ([], Doc.valid [])
  | Doc.valid m => Except.ok (m, Doc.valid m)

/-- update_sleep_interval (src/main.py lines 475-491): a non-positive
interval is rejected before the config is even loaded, leaving the
document untouched; otherwise the config is loaded (healing, fatal on
corruption), the interval replaced, and the document persisted. -/
def update_sleep_interval (configFolder : String) (doc : Doc RawConfig)
    (interval : Int) : Except Nat (Doc RawConfig) :=
  if interval ≤ 0 then Except.ok doc
  else
    match get_config_file configFolder doc with
    | Except.error n => Except.error n
    | Except.ok (cfg, _) =>
        Except.ok (Doc.valid (configToRaw { cfg with interval := interval }))

/-- C6: loading a config or checksum document that exists but cannot be
parsed aborts the whole process with exit status 1 (nonzero, no default
substitution), while a missing document is non-fatal: it is initialised
with the defaults, which are also written to disk. -/
theorem C6_corrupt_fatal_missing_defaulted (configFolder : String) :
    get_config_file configFolder Doc.corrupt = Except.error 1 ∧
    get_checksums_json (Doc.corrupt : Doc ChecksumMap) = Except.error 1 ∧
    (1 : Nat) ≠ 0 ∧
    get_config_file configFolder Doc.absent =
      Except.ok (defaultConfig configFolder,
        Doc.valid (configToRaw (defaultConfig configFolder))) ∧
    get_checksums_json (Doc.absent : Doc ChecksumMap) =
      Except.ok ([], Doc.valid []) :=
  ⟨rfl, rfl, by decide, rfl, rfl⟩

/-- C10: the set_interval command rejects every interval at most 0 and
returns before touching the config document, whereas the load-time
validation accepts interval = 0 (only negative values are healed), so a
zero interval survives a load unchanged. -/
theorem C10_zero_interval_cli_vs_load :
    (∀ (configFolder : String) (doc : Doc RawConfig) (i : Int), i ≤ 0 →
      update_sleep_interval configFolder doc i = Except.ok doc) ∧
    (∀ (configFolder : String) (r : RawConfig), r.interval = some 0 →
      (healConfig configFolder r).interval = 0) ∧
    (∀ (configFolder : String) (r : RawConfig) (i : Int),
      r.interval = some i → 0 ≤ i →
      (healConfig configFolder r).interval = i) := by
  refine ⟨?_, ?_, ?_⟩
  · intro cf doc i hi
    simp [update_sleep_interval, hi]
  · intro cf r hr
    simp [healConfig, hr]
  · intro cf r i hr hi
    simp [healConfig, hr, Int.not_lt.mpr hi]

/-- C10 witness: set_interval 0 leaves a concrete document untouched, and
load-healing keeps a stored interval of 0. -/
theorem C10_zero_interval_cli_vs_load_witness :
    update_sleep_interval "/opt/app" (Doc.valid ⟨some 7, none, none⟩) 0 =
      Except.ok (Doc.valid ⟨some 7, none, none⟩) ∧
    (healConfig "/opt/app" ⟨some 0, none, none⟩).interval = 0 :=
  ⟨C10_zero_interval_cli_vs_load.1 "/opt/app" _ 0 (by decide),
    C10_zero_interval_cli_vs_load.2.1 "/opt/app" _ rfl⟩

/-! ## Filesystem state for DestinationMigrator and clear_destination
(src/main.py: change_backup_destination lines 494-573, clear_backup_folder
lines 576-620)

The on-disk world these operations touch: the set of existing
directories, the existing files with their contents, the checksum
document (none when the file is absent) and the loaded config.  Paths
are in canonical segment form; is_valid_mac_path reduces on that form to
the absence of a colon in any component (the path is absolute by
construction and remove_escape_characters has already removed every
backslash, making the backslash half of the regex check vacuous). -/

/-- The three answers of is_path_exist (src/main.py lines 130-146). -/
inductive PathKind where
  | file : PathKind
  | directory : PathKind
  | notExists : PathKind
deriving DecidableEq

/-- The loaded config, with paths in segment form. -/
structure SysConfig where
  interval : Int
  backup_destination : FPath
  items_to_backup : List FPath
deriving DecidableEq

/-- The state touched by the migration operations. -/
structure SysState where
  dirs : List FPath
  files : List (FPath × String)
  checksums : Option ChecksumMap
  config : SysConfig
deriving DecidableEq

/-- os.path.isfile: some file lives at exactly this path. -/
def fileExistsAt (st : SysState) (p : FPath) : Bool :=
  st.files.any fun f => f.1 == p

/-- os.path.isdir: this path is an existing directory. -/
def isDir (st : SysState) (p : FPath) : Bool :=
  st.dirs.contains p

/-- src/main.py lines 130-146: classify a path as file, directory or
missing (existence checked first, then file before directory). -/
def is_path_exist (st : SysState) (p : FPath) : PathKind :=
  if fileExistsAt st p then PathKind.file
  else if isDir st p then PathKind.directory
  else PathKind.notExists

/-- Componentwise prefix test: the first path is the second or one of its
filesystem ancestors. -/
def isAncestorOf : FPath → FPath → Bool
  | [], _ => true
  | _ :: _, [] => false
  | a :: p, b :: q => a == b && isAncestorOf p q

/-- Strict descent: anc is an ancestor of p and differs from it. -/
def strictUnder (anc p : FPath) : Bool :=
  isAncestorOf anc p && anc != p

/-- is_valid_mac_path on the canonical segment form of an absolute path:
only the colon check of the regex remains observable. -/
def is_valid_seg_path (p : FPath) : Bool :=
  p.all fun s => !(s.toList.any fun c => c = ':')

/-- The nonempty prefixes of a path: every directory os.makedirs creates
on the way to p, including p itself. -/
def prefixesOf : FPath → List FPath
  | [] => []
  | a :: rest => [a] :: (prefixesOf rest).map fun q => a :: q

/-- os.makedirs(p): every missing ancestor directory of p, and p itself,
comes into existence; nothing else changes. -/
def makedirs (st : SysState) (p : FPath) : SysState :=
  { st with dirs := st.dirs ++ (prefixesOf p).filter fun q => !(st.dirs.contains q) }

/-- Mirroring a path under the new root: its path relative to the old
root, joined onto the new root. -/
def relocate (old newp p : FPath) : FPath :=
  newp ++ p.drop old.length

/-- os.makedirs(q), invoked when q does not exist, raises when a plain
file occupies a proper prefix of q (NotADirectoryError, an OSError). -/
def makedirsBlocked (s : SysState) (q : FPath) : Bool :=
  (prefixesOf q).any fun r => r != q && fileExistsAt s r

/-- One body of the os.walk loop of change_backup_destination
(src/main.py lines 531-545) at the root directory d: destination_dir is
d's mirror under the new root; when it already exists (as directory or
file) the makedirs at line 536 is skipped, else it is attempted and a
blocking file makes it raise — the exception propagates to the outer
except at line 571, halting the walk with the state reached so far.
Otherwise the files directly inside d are moved to the mirror; a
per-file shutil.move failure (moveOk false, which also covers a move
refused because the mirror is occupied by a file) is caught at lines
544-545 and that file is left in place. -/
def moveFilesOfRoot (s : SysState) (old newp d : FPath)
    (moveOk : FPath → Bool) : SysState :=
  { s with files := s.files.map fun f =>
      if f.1.length = d.length + 1 ∧ isAncestorOf d f.1 = true ∧ moveOk f.1 = true
      then (relocate old newp f.1, f.2) else f }

def walkStep (old newp : FPath) (moveOk : FPath → Bool) (s : SysState)
    (d : FPath) : Except SysState SysState :=
  if fileExistsAt s (relocate old newp d) = true ∨ isDir s (relocate old newp d) = true
  then Except.ok (moveFilesOfRoot s old newp d moveOk)
  else if makedirsBlocked s (relocate old newp d) = true then Except.error s
  else Except.ok (moveFilesOfRoot (makedirs s (relocate old newp d)) old newp d moveOk)

/-- The whole os.walk move loop over the roots of the old tree, threading
the filesystem state; an error carries the state at which the walk's
makedirs raised (files of earlier roots already moved, nothing of this
root's), which the outer except at lines 571-573 then merely logs. -/
def migrateWalk (old newp : FPath) (moveOk : FPath → Bool) :
    SysState → List FPath → Except SysState SysState
  | s, [] => Except.ok s
  | s, d :: rest =>
      match walkStep old newp moveOk s d with
      | Except.error e => Except.error e
      | Except.ok s2 => migrateWalk old newp moveOk s2 rest

/-- The roots os.walk(old) yields: the old destination and the existing
directories below it, in the listing order the dirs list fixes. -/
def walkRoots (st : SysState) (old : FPath) : List FPath :=
  st.dirs.filter fun d => isAncestorOf old d

/-- shutil.rmtree(p): the directory p and everything below it is gone. -/
def rmtree (st : SysState) (p : FPath) : SysState :=
  { st with
      dirs := st.dirs.filter fun d => !(isAncestorOf p d),
      files := st.files.filter fun f => !(isAncestorOf p f.1) }

/-- change_backup_destination (src/main.py lines 494-573): validate the
new path; if it is not already a directory, create it with os.makedirs at
line 513 — which raises, caught at lines 515-518 with an immediate
return, exactly when a plain file occupies the new path or any prefix of
it; then load the config and require the old destination to be a
directory, else return; otherwise run the os.walk move loop, which either
halts mid-walk on a makedirs exception at line 536 (propagating to the
outer except at line 571, so the rmtree, the checksum reset and the
config save are all skipped and the partially migrated state remains) or
completes, after which the old tree is deleted unconditionally, the
checksum document is reset to an empty mapping when it exists, and the
new destination is persisted into the config.  The phase after the mkdir
step is split into its own definition. -/
def changeDestAfterMkdir (st1 : SysState) (newp : FPath)
    (moveOk : FPath → Bool) : SysState :=
  if is_path_exist st1 st1.config.backup_destination ≠ PathKind.directory then st1
  else
    match migrateWalk st1.config.backup_destination newp moveOk st1
        (walkRoots st1 st1.config.backup_destination) with
    | Except.error s => s
    | Except.ok s =>
        { dirs := (rmtree s st1.config.backup_destination).dirs,
          files := (rmtree s st1.config.backup_destination).files,
          checksums := st1.checksums.map fun _ => ([] : ChecksumMap),
          config := { st1.config with backup_destination := newp } }

def change_backup_destination (st : SysState) (newp : FPath)
    (moveOk : FPath → Bool) : SysState :=
  if !(is_valid_seg_path newp) then st
  else if is_path_exist st newp ≠ PathKind.directory ∧
      (prefixesOf newp).any (fun q => fileExistsAt st q) = true then st
  else changeDestAfterMkdir
    (if is_path_exist st newp = PathKind.directory then st else makedirs st newp)
    newp moveOk

/-- clear_backup_folder (src/main.py lines 576-620): when the configured
destination is a directory, every file and every subdirectory inside it
is deleted (the walk removes the top-level files and rmtrees the
top-level directories), the destination directory itself is kept, the
checksum document is reset to an empty mapping when it exists, and the
config is not touched. -/
def clear_backup_folder (st : SysState) : SysState :=
  if is_path_exist st st.config.backup_destination ≠ PathKind.directory then st
  else
    { st with
        files := st.files.filter fun f => !(strictUnder st.config.backup_destination f.1),
        dirs := st.dirs.filter fun d => !(strictUnder st.config.backup_destination d),
        checksums := st.checksums.map fun _ => ([] : ChecksumMap) }

theorem isAncestorOf_refl : ∀ p : FPath, isAncestorOf p p = true
  | [] => rfl
  | _ :: p => by simp [isAncestorOf, isAncestorOf_refl p]

theorem mem_prefixesOf : ∀ p q : FPath, q ∈ prefixesOf p →
    isAncestorOf q p = true
  | [], q, h => by simp [prefixesOf] at h
  | a :: rest, q, h => by
    simp only [prefixesOf, List.mem_cons, List.mem_map] at h
    rcases h with h | ⟨r, hr, rfl⟩
    · subst h
      simp [isAncestorOf]
    · simp [isAncestorOf, mem_prefixesOf rest r hr]

theorem is_path_exist_dir_iff (st : SysState) (p : FPath) :
    is_path_exist st p = PathKind.directory ↔
      fileExistsAt st p = false ∧ isDir st p = true := by
  unfold is_path_exist
  by_cases h1 : fileExistsAt st p
  · simp [h1]
  · by_cases h2 : isDir st p <;> simp [h1, h2]

theorem is_path_exist_notExists_iff (st : SysState) (p : FPath) :
    is_path_exist st p = PathKind.notExists ↔
      fileExistsAt st p = false ∧ isDir st p = false := by
  unfold is_path_exist
  by_cases h1 : fileExistsAt st p
  · simp [h1]
  · by_cases h2 : isDir st p <;> simp [h1, h2]

theorem isAncestorOf_iff : ∀ a b : FPath, isAncestorOf a b = true ↔ a <+: b
  | [], b => by simp [isAncestorOf]
  | a :: as, [] => by simp [isAncestorOf]
  | a :: as, b :: bs => by
    rw [ List.cons_prefix_cons]
    simp [isAncestorOf, isAncestorOf_iff as bs]

theorem isAncestorOf_trans {a b c : FPath} (h1 : isAncestorOf a b = true)
    (h2 : isAncestorOf b c = true) : isAncestorOf a c = true :=
  (isAncestorOf_iff a c).mpr
    (((isAncestorOf_iff a b).mp h1).trans ((isAncestorOf_iff b c).mp h2))

theorem isAncestorOf_length_le {a b : FPath} (h : isAncestorOf a b = true) :
    a.length ≤ b.length :=
  ((isAncestorOf_iff a b).mp h).length_le

theorem isAncestorOf_append_right (a x : FPath) : isAncestorOf a (a ++ x) = true :=
  (isAncestorOf_iff a (a ++ x)).mpr ⟨x, rfl⟩

theorem append_drop_of_isAncestorOf {a b : FPath} (h : isAncestorOf a b = true) :
    a ++ b.drop a.length = b := by
  obtain ⟨t, rfl⟩ := (isAncestorOf_iff a b).mp h
  rw [List.drop_left]

theorem isAncestorOf_comparable {a b c : FPath} (h1 : isAncestorOf a c = true)
    (h2 : isAncestorOf b c = true) :
    isAncestorOf a b = true ∨ isAncestorOf b a = true := by
  rcases List.prefix_or_prefix_of_prefix ((isAncestorOf_iff a c).mp h1)
      ((isAncestorOf_iff b c).mp h2) with h | h
  · exact Or.inl ((isAncestorOf_iff a b).mpr h)
  · exact Or.inr ((isAncestorOf_iff b a).mpr h)

theorem isAncestorOf_append_left {a x y : FPath} (h : isAncestorOf x y = true) :
    isAncestorOf (a ++ x) (a ++ y) = true := by
  obtain ⟨t, rfl⟩ := (isAncestorOf_iff x y).mp h
  rw [← List.append_assoc]
  exact isAncestorOf_append_right (a ++ x) t

theorem strictUnder_iff (a b : FPath) :
    strictUnder a b = true ↔ isAncestorOf a b = true ∧ a ≠ b := by
  simp [strictUnder]

theorem strictUnder_length_lt {a b : FPath} (h : strictUnder a b = true) :
    a.length < b.length := by
  obtain ⟨h1, h2⟩ := (strictUnder_iff a b).mp h
  rcases Nat.lt_or_ge a.length b.length with hl | hl
  · exact hl
  · exact absurd (((isAncestorOf_iff a b).mp h1).eq_of_length
      (Nat.le_antisymm (isAncestorOf_length_le h1) hl)) h2

theorem prefixesOf_append : ∀ a b : FPath,
    prefixesOf (a ++ b) = prefixesOf a ++ (prefixesOf b).map fun q => a ++ q
  | [], b => by simp [prefixesOf]
  | x :: a, b => by
    simp [prefixesOf, prefixesOf_append a b, List.map_map, Function.comp]

theorem prefixesOf_ne_nil : ∀ (p r : FPath), r ∈ prefixesOf p → r ≠ []
  | [], r, h => by simp [prefixesOf] at h
  | a :: p, r, h => by
    simp only [prefixesOf, List.mem_cons, List.mem_map] at h
    rcases h with rfl | ⟨q, _, rfl⟩ <;> simp

theorem mem_prefixesOf_of : ∀ (r p : FPath), isAncestorOf r p = true → r ≠ [] →
    r ∈ prefixesOf p
  | [], _, _, hne => absurd rfl hne
  | a :: r, [], h, _ => by simp [isAncestorOf] at h
  | a :: r, b :: p, h, _ => by
    simp only [isAncestorOf, Bool.and_eq_true, beq_iff_eq] at h
    obtain ⟨rfl, h2⟩ := h
    rcases r with _ | ⟨c, r'⟩
    · simp [prefixesOf]
    · have hm := mem_prefixesOf_of (c :: r') p h2 (by simp)
      simp only [prefixesOf, List.mem_cons, List.mem_map]
      exact Or.inr ⟨c :: r', hm, rfl⟩

theorem fileExistsAt_of_mem {s : SysState} {f : FPath × String}
    (h : f ∈ s.files) : fileExistsAt s f.1 = true := by
  simp only [fileExistsAt, List.any_eq_true]
  exact ⟨f, h, by simp⟩

theorem fileExistsAt_eq_false_iff (s : SysState) (r : FPath) :
    fileExistsAt s r = false ↔ ∀ f ∈ s.files, f.1 ≠ r := by
  rw [← Bool.not_eq_true, fileExistsAt, List.any_eq_true]
  constructor
  · intro h f hf he
    exact h ⟨f, hf, by simp [he]⟩
  · rintro h ⟨f, hf, hbe⟩
    exact h f hf (by simpa using hbe)

theorem makedirsBlocked_eq_false_iff (s : SysState) (q : FPath) :
    makedirsBlocked s q = false ↔
      ∀ r ∈ prefixesOf q, r ≠ q → fileExistsAt s r = false := by
  rw [← Bool.not_eq_true, makedirsBlocked, List.any_eq_true]
  constructor
  · intro h r hr hne
    by_contra hc
    rw [Bool.not_eq_false] at hc
    exact h ⟨r, hr, by simp [hne, hc]⟩
  · rintro h ⟨r, hr, hcond⟩
    rw [Bool.and_eq_true, bne_iff_ne] at hcond
    rw [h r hr hcond.1] at hcond
    exact absurd hcond.2 (by simp)

theorem isDir_iff (st : SysState) (p : FPath) :
    isDir st p = true ↔ p ∈ st.dirs := by
  simp [isDir]

theorem strictUnder_self (p : FPath) : strictUnder p p = false := by
  simp [strictUnder]

theorem mem_makedirs_dirs (st : SysState) (p d : FPath)
    (h : d ∈ (makedirs st p).dirs) : d ∈ st.dirs ∨ isAncestorOf d p = true := by
  simp only [makedirs, List.mem_append, List.mem_filter] at h
  rcases h with h | ⟨h, _⟩
  · exact Or.inl h
  · exact Or.inr (mem_prefixesOf p d h)

theorem isDir_makedirs_of (st : SysState) (p q : FPath)
    (h : isDir st q = true) : isDir (makedirs st p) q = true := by
  rw [isDir_iff] at h ⊢
  simp only [makedirs, List.mem_append]
  exact Or.inl h

theorem changeDestAfterMkdir_abort (st1 : SysState) (newp : FPath)
    (moveOk : FPath → Bool)
    (h : is_path_exist st1 st1.config.backup_destination ≠ PathKind.directory) :
    changeDestAfterMkdir st1 newp moveOk = st1 := by
  simp [changeDestAfterMkdir, h]

theorem fileExistsAt_rmtree (st : SysState) (p q : FPath)
    (h : isAncestorOf p q = true) : fileExistsAt (rmtree st p) q = false := by
  simp only [rmtree, fileExistsAt]
  rw [Bool.eq_false_iff]
  intro hc
  rw [List.any_eq_true] at hc
  obtain ⟨f, hf, hfq⟩ := hc
  rw [List.mem_filter] at hf
  rw [beq_iff_eq] at hfq
  rw [hfq] at hf
  rw [h] at hf
  simpa using hf.2

theorem isDir_rmtree (st : SysState) (p q : FPath)
    (h : isAncestorOf p q = true) : isDir (rmtree st p) q = false := by
  rw [Bool.eq_false_iff]
  intro hc
  rw [isDir_iff] at hc
  simp only [rmtree, List.mem_filter] at hc
  rw [h] at hc
  simpa using hc.2

/-- A concrete state for C3: /home exists, the configured destination
/home/old does not, the checksum document is an empty mapping. -/
def stC3 : SysState :=
  { dirs := [["home"]], files := [],
    checksums := some [], config := ⟨300, ["home", "old"], []⟩ }

/-- C3 amended: when the old destination is not a directory (and creating
the new destination cannot itself bring the old one into existence), the
operation aborts having moved and deleted nothing, with the checksum and
config documents untouched — but the new destination's directory chain
may by then already have been created on disk. -/
theorem C3_abort_only_creates_new_dir (st : SysState) (newp : FPath)
    (moveOk : FPath → Bool)
    (hold : is_path_exist st st.config.backup_destination ≠ PathKind.directory)
    (hnu : isAncestorOf st.config.backup_destination newp = false) :
    (change_backup_destination st newp moveOk).files = st.files ∧
    (change_backup_destination st newp moveOk).checksums = st.checksums ∧
    (change_backup_destination st newp moveOk).config = st.config ∧
    ∀ d ∈ (change_backup_destination st newp moveOk).dirs,
      d ∈ st.dirs ∨ isAncestorOf d newp = true := by
  unfold change_backup_destination
  split_ifs with h1 h2 h3
  · exact ⟨rfl, rfl, rfl, fun d hd => Or.inl hd⟩
  · exact ⟨rfl, rfl, rfl, fun d hd => Or.inl hd⟩
  · rw [changeDestAfterMkdir_abort st newp moveOk hold]
    exact ⟨rfl, rfl, rfl, fun d hd => Or.inl hd⟩
  · have habort : is_path_exist (makedirs st newp)
        (makedirs st newp).config.backup_destination ≠ PathKind.directory := by
      have hcfg : (makedirs st newp).config.backup_destination =
          st.config.backup_destination := rfl
      rw [hcfg]
      intro hdir
      rw [is_path_exist_dir_iff] at hdir
      obtain ⟨hf, hd⟩ := hdir
      have hff : fileExistsAt st st.config.backup_destination = false := hf
      rcases mem_makedirs_dirs st newp _ ((isDir_iff _ _).mp hd) with hin | hanc
      · exact hold ((is_path_exist_dir_iff st _).mpr ⟨hff, (isDir_iff _ _).mpr hin⟩)
      · rw [hanc] at hnu
        exact absurd hnu (by simp)
    rw [changeDestAfterMkdir_abort _ newp moveOk habort]
    refine ⟨rfl, rfl, rfl, fun d hd => ?_⟩
    rcases mem_makedirs_dirs st newp d hd with h | h
    · exact Or.inl h
    · exact Or.inr h

/-- C3 amended witness: the concrete aborted invocation moves nothing and
keeps both documents, with the new directory the only possible addition. -/
theorem C3_abort_only_creates_new_dir_witness :
    (change_backup_destination stC3 ["home", "new"] fun _ => true).files =
      stC3.files ∧
    (change_backup_destination stC3 ["home", "new"] fun _ => true).checksums =
      stC3.checksums ∧
    (change_backup_destination stC3 ["home", "new"] fun _ => true).config =
      stC3.config ∧
    ∀ d ∈ (change_backup_destination stC3 ["home", "new"] fun _ => true).dirs,
      d ∈ stC3.dirs ∨ isAncestorOf d ["home", "new"] = true :=
  C3_abort_only_creates_new_dir stC3 ["home", "new"] (fun _ => true)
    (by decide) (by decide)

/-- C3 counterexample: invoking change_destination with a valid new path
/home/new while the old destination /home/old does not exist as a
directory does abort, but only after os.makedirs has already created the
new destination — so "no directory is created on disk" is false. -/
theorem C3_counterexample_mkdir_before_abort :
    is_path_exist stC3 stC3.config.backup_destination = PathKind.notExists ∧
    isDir stC3 ["home", "new"] = false ∧
    isDir (change_backup_destination stC3 ["home", "new"] fun _ => true)
      ["home", "new"] = true := by decide

/-- Moving one root's files keeps the file list a pointwise relocation of
the original one: the relocated subset grows by this root's direct child
files whose move succeeded, and an already-relocated file (now under the
new root) is never picked up again as long as the two roots are not
nested. -/
theorem moveFilesOfRoot_comp (st0 s : SysState) (old newp d : FPath)
    (moveOk : FPath → Bool) (moved : FPath → Bool)
    (hd : isAncestorOf old d = true)
    (hsep1 : isAncestorOf old newp = false)
    (hsep2 : isAncestorOf newp old = false)
    (hfiles : s.files = st0.files.map fun f =>
      if strictUnder old f.1 = true ∧ moved f.1 = true
      then (relocate old newp f.1, f.2) else f) :
    (moveFilesOfRoot s old newp d moveOk).files = st0.files.map fun f =>
      if strictUnder old f.1 = true ∧ (moved f.1 = true ∨
          (f.1.length = d.length + 1 ∧ isAncestorOf d f.1 = true ∧ moveOk f.1 = true))
      then (relocate old newp f.1, f.2) else f := by
  show (s.files.map fun f =>
      if f.1.length = d.length + 1 ∧ isAncestorOf d f.1 = true ∧ moveOk f.1 = true
      then (relocate old newp f.1, f.2) else f) = _
  rw [hfiles, List.map_map]
  congr 1
  funext f
  simp only [Function.comp]
  by_cases hpsi : strictUnder old f.1 = true ∧ moved f.1 = true
  · rw [if_pos hpsi]
    have hcond : ¬ ((relocate old newp f.1, f.2).1.length = d.length + 1 ∧
        isAncestorOf d (relocate old newp f.1, f.2).1 = true ∧
        moveOk (relocate old newp f.1, f.2).1 = true) := by
      rintro ⟨-, hanc, -⟩
      have hn : isAncestorOf newp (relocate old newp f.1) = true :=
        isAncestorOf_append_right newp _
      rcases isAncestorOf_comparable (isAncestorOf_trans hd hanc) hn with h | h
      · rw [h] at hsep1
        exact absurd hsep1 (by simp)
      · rw [h] at hsep2
        exact absurd hsep2 (by simp)
    rw [if_neg hcond, if_pos ⟨hpsi.1, Or.inl hpsi.2⟩]
  · rw [if_neg hpsi]
    by_cases hphi : f.1.length = d.length + 1 ∧ isAncestorOf d f.1 = true ∧
        moveOk f.1 = true
    · have hso : strictUnder old f.1 = true := by
        rw [strictUnder_iff]
        refine ⟨isAncestorOf_trans hd hphi.2.1, ?_⟩
        intro he
        have hl1 := isAncestorOf_length_le hd
        have hl2 := hphi.1
        rw [← he] at hl2
        omega
      rw [if_pos hphi, if_pos ⟨hso, Or.inr hphi⟩]
    · have hchi : ¬ (strictUnder old f.1 = true ∧ (moved f.1 = true ∨
          (f.1.length = d.length + 1 ∧ isAncestorOf d f.1 = true ∧
            moveOk f.1 = true))) := by
        rintro ⟨hso, hmv | hcd⟩
        · exact hpsi ⟨hso, hmv⟩
        · exact hphi hcd
      rw [if_neg hphi, if_neg hchi]

/-- Under the success-region hypotheses — no file anywhere on or below the
new root, a well-formed file/dir table, un-nested roots — no mirror
makedirs of the walk ever hits a blocking file, so the whole walk
completes without raising. -/
theorem migrateWalk_ok (st0 : SysState) (old newp : FPath)
    (moveOk : FPath → Bool)
    (hnp : ∀ r ∈ prefixesOf newp, fileExistsAt st0 r = false)
    (hunder : ∀ f ∈ st0.files, isAncestorOf newp f.1 = false)
    (hcons : ∀ f ∈ st0.files, ∀ d ∈ st0.dirs, strictUnder f.1 d = false)
    (hsep1 : isAncestorOf old newp = false)
    (hsep2 : isAncestorOf newp old = false) :
    ∀ (roots : List FPath) (s : SysState) (moved : FPath → Bool),
      (∀ d ∈ roots, d ∈ st0.dirs ∧ isAncestorOf old d = true) →
      s.files = (st0.files.map fun f =>
        if strictUnder old f.1 = true ∧ moved f.1 = true
        then (relocate old newp f.1, f.2) else f) →
      ∃ s2, migrateWalk old newp moveOk s roots = Except.ok s2 := by
  intro roots
  induction roots with
  | nil =>
    intro s moved _ _
    exact ⟨s, rfl⟩
  | cons d rest ih =>
    intro s moved hroots hfiles
    obtain ⟨hdmem, hdanc⟩ := hroots d (by simp)
    have hq : relocate old newp d = newp ++ d.drop old.length := rfl
    have hblockedAll : ∀ r ∈ prefixesOf (relocate old newp d),
        r ≠ relocate old newp d → fileExistsAt s r = false := by
      intro r hr hneq
      rw [hq, prefixesOf_append] at hr
      rw [fileExistsAt_eq_false_iff]
      intro f hf he
      rw [hfiles, List.mem_map] at hf
      obtain ⟨g, hg, hgf⟩ := hf
      by_cases hpsi : strictUnder old g.1 = true ∧ moved g.1 = true
      · rw [if_pos hpsi] at hgf
        have hflen : f.1 = relocate old newp g.1 := by rw [← hgf]
        have hlt := strictUnder_length_lt hpsi.1
        rcases List.mem_append.mp hr with hrn | hrm
        · have hle := isAncestorOf_length_le (mem_prefixesOf newp r hrn)
          have hlen : r.length = newp.length + (g.1.length - old.length) := by
            rw [← he, hflen, relocate, List.length_append, List.length_drop]
          omega
        · obtain ⟨c, hc, rfl⟩ := List.mem_map.mp hrm
          have hdc : g.1.drop old.length = c := by
            have hx : relocate old newp g.1 = newp ++ c := by
              rw [← hflen, he]
            have hx2 : newp ++ g.1.drop old.length = newp ++ c := hx
            exact List.append_cancel_left hx2
          have hanc : isAncestorOf old g.1 = true :=
            ((strictUnder_iff _ _).mp hpsi.1).1
          have hg1 : g.1 = old ++ c := by
            rw [← hdc]
            exact (append_drop_of_isAncestorOf hanc).symm
          have hd2 : old ++ d.drop old.length = d := append_drop_of_isAncestorOf hdanc
          have hsu : strictUnder g.1 d = true := by
            rw [strictUnder_iff]
            constructor
            · rw [hg1, ← hd2]
              exact isAncestorOf_append_left (mem_prefixesOf (d.drop old.length) c hc)
            · rw [hg1, ← hd2]
              intro heq
              apply hneq
              rw [hq, List.append_cancel_left heq]
          have hfd := hcons g hg d hdmem
          rw [hsu] at hfd
          exact absurd hfd (by simp)
      · rw [if_neg hpsi] at hgf
        rcases List.mem_append.mp hr with hrn | hrm
        · have hx := hnp r hrn
          rw [fileExistsAt_eq_false_iff] at hx
          refine hx g hg ?_
          rw [← hgf] at he
          exact he
        · obtain ⟨c, hc, rfl⟩ := List.mem_map.mp hrm
          have hg1 : g.1 = newp ++ c := by
            rw [← hgf] at he
            exact he
          have hx : isAncestorOf newp g.1 = true := by
            rw [hg1]
            exact isAncestorOf_append_right newp c
          rw [hunder g hg] at hx
          exact absurd hx (by simp)
    have hroots2 : ∀ d2 ∈ rest, d2 ∈ st0.dirs ∧ isAncestorOf old d2 = true :=
      fun d2 hd2 => hroots d2 (List.mem_cons_of_mem d hd2)
    by_cases hex : fileExistsAt s (relocate old newp d) = true ∨
        isDir s (relocate old newp d) = true
    · have hstep : walkStep old newp moveOk s d =
          Except.ok (moveFilesOfRoot s old newp d moveOk) := by
        unfold walkStep
        rw [if_pos hex]
      have hcomp := moveFilesOfRoot_comp st0 s old newp d moveOk moved
        hdanc hsep1 hsep2 hfiles
      have hfiles2 : (moveFilesOfRoot s old newp d moveOk).files =
          st0.files.map fun f =>
            if strictUnder old f.1 = true ∧ (fun p => moved p ||
                decide (p.length = d.length + 1 ∧ isAncestorOf d p = true ∧
                  moveOk p = true)) f.1 = true
            then (relocate old newp f.1, f.2) else f := by
        rw [hcomp]
        congr 1
        funext f
        refine if_congr (and_congr_right fun _ => ?_) rfl rfl
        simp
      obtain ⟨s2, hs2⟩ := ih (moveFilesOfRoot s old newp d moveOk)
        (fun p => moved p || decide (p.length = d.length + 1 ∧
          isAncestorOf d p = true ∧ moveOk p = true)) hroots2 hfiles2
      refine ⟨s2, ?_⟩
      simp only [migrateWalk]
      rw [hstep]
      exact hs2
    · have hblocked : makedirsBlocked s (relocate old newp d) = false :=
        (makedirsBlocked_eq_false_iff s _).mpr hblockedAll
      have hstep : walkStep old newp moveOk s d = Except.ok
          (moveFilesOfRoot (makedirs s (relocate old newp d)) old newp d moveOk) := by
        unfold walkStep
        rw [if_neg hex, if_neg (by simp [hblocked])]
      have hcomp := moveFilesOfRoot_comp st0 (makedirs s (relocate old newp d))
        old newp d moveOk moved hdanc hsep1 hsep2 hfiles
      have hfiles2 : (moveFilesOfRoot (makedirs s (relocate old newp d))
          old newp d moveOk).files =
          st0.files.map fun f =>
            if strictUnder old f.1 = true ∧ (fun p => moved p ||
                decide (p.length = d.length + 1 ∧ isAncestorOf d p = true ∧
                  moveOk p = true)) f.1 = true
            then (relocate old newp f.1, f.2) else f := by
        rw [hcomp]
        congr 1
        funext f
        refine if_congr (and_congr_right fun _ => ?_) rfl rfl
        simp
      obtain ⟨s2, hs2⟩ := ih (moveFilesOfRoot (makedirs s (relocate old newp d))
          old newp d moveOk)
        (fun p => moved p || decide (p.length = d.length + 1 ∧
          isAncestorOf d p = true ∧ moveOk p = true)) hroots2 hfiles2
      refine ⟨s2, ?_⟩
      simp only [migrateWalk]
      rw [hstep]
      exact hs2

/-- On a state whose old destination is a directory and that satisfies the
success-region hypotheses, the walk completes and the operation performs
its final phase: old tree deleted, checksum document emptied, config
updated. -/
theorem changeDestAfterMkdir_success (st1 : SysState) (newp : FPath)
    (moveOk : FPath → Bool)
    (hnp1 : ∀ r ∈ prefixesOf newp, fileExistsAt st1 r = false)
    (hunder1 : ∀ f ∈ st1.files, isAncestorOf newp f.1 = false)
    (hcons1 : ∀ f ∈ st1.files, ∀ d ∈ st1.dirs, strictUnder f.1 d = false)
    (hsep1 : isAncestorOf st1.config.backup_destination newp = false)
    (hsep2 : isAncestorOf newp st1.config.backup_destination = false)
    (hdir : is_path_exist st1 st1.config.backup_destination = PathKind.directory) :
    (changeDestAfterMkdir st1 newp moveOk).checksums =
      st1.checksums.map (fun _ => ([] : ChecksumMap)) ∧
    is_path_exist (changeDestAfterMkdir st1 newp moveOk)
      st1.config.backup_destination = PathKind.notExists ∧
    (changeDestAfterMkdir st1 newp moveOk).config.backup_destination = newp := by
  obtain ⟨s2, hs2⟩ := migrateWalk_ok st1 st1.config.backup_destination newp moveOk
    hnp1 hunder1 hcons1 hsep1 hsep2
    (walkRoots st1 st1.config.backup_destination) st1 (fun _ => false)
    (fun d hd => by
      rw [walkRoots, List.mem_filter] at hd
      exact ⟨hd.1, hd.2⟩)
    (by simp)
  have hne : ¬ is_path_exist st1 st1.config.backup_destination ≠ PathKind.directory := by
    simp [hdir]
  unfold changeDestAfterMkdir
  rw [if_neg hne, hs2]
  refine ⟨rfl, ?_, rfl⟩
  rw [is_path_exist_notExists_iff]
  exact ⟨fileExistsAt_rmtree s2 _ _ (isAncestorOf_refl _),
    isDir_rmtree s2 _ _ (isAncestorOf_refl _)⟩

/-- C7: a successful change_destination — valid new path, no file sitting
on the new destination's path chain or anywhere at or below it (so
neither the makedirs at line 513 nor any mirror makedirs at line 536 can
raise), destinations not nested, a well-formed file/dir table, old
destination an existing directory, checksum document present — leaves
the checksum document an empty mapping, removes the old destination from
disk entirely, and persists the new path as the config's backup
destination. -/
theorem C7_change_destination_success (st : SysState) (newp : FPath)
    (moveOk : FPath → Bool)
    (hvalid : is_valid_seg_path newp = true)
    (hnp : ∀ r ∈ prefixesOf newp, fileExistsAt st r = false)
    (hroot : fileExistsAt st [] = false)
    (hunder : ∀ f ∈ st.files, isAncestorOf newp f.1 = false)
    (hcons : ∀ f ∈ st.files, ∀ d ∈ st.dirs, strictUnder f.1 d = false)
    (hsep1 : isAncestorOf st.config.backup_destination newp = false)
    (hsep2 : isAncestorOf newp st.config.backup_destination = false)
    (hold : is_path_exist st st.config.backup_destination = PathKind.directory)
    (hck : st.checksums.isSome = true) :
    (change_backup_destination st newp moveOk).checksums = some [] ∧
    is_path_exist (change_backup_destination st newp moveOk)
      st.config.backup_destination = PathKind.notExists ∧
    (change_backup_destination st newp moveOk).config.backup_destination = newp := by
  obtain ⟨m, hm⟩ := Option.isSome_iff_exists.mp hck
  have hanyfalse : ((prefixesOf newp).any fun q => fileExistsAt st q) = false := by
    rw [← Bool.not_eq_true, List.any_eq_true]
    rintro ⟨r, hr, hfx⟩
    rw [hnp r hr] at hfx
    exact absurd hfx (by simp)
  unfold change_backup_destination
  split_ifs with h1 h2 h3
  · rw [hvalid] at h1
    exact absurd h1 (by simp)
  · rw [hanyfalse] at h2
    exact absurd h2.2 (by simp)
  · have hsucc := changeDestAfterMkdir_success st newp moveOk hnp hunder hcons
      hsep1 hsep2 hold
    refine ⟨?_, hsucc.2.1, hsucc.2.2⟩
    rw [hsucc.1, hm]
    rfl
  · have hcons1 : ∀ f ∈ (makedirs st newp).files, ∀ d ∈ (makedirs st newp).dirs,
        strictUnder f.1 d = false := by
      intro f hf d hd
      rcases mem_makedirs_dirs st newp d hd with hdm | hdanc
      · exact hcons f hf d hdm
      · rw [← Bool.not_eq_true]
        intro hsu
        have hx : isAncestorOf f.1 newp = true :=
          isAncestorOf_trans ((strictUnder_iff _ _).mp hsu).1 hdanc
        by_cases hfe : f.1 = []
        · have hfx : fileExistsAt st ([] : FPath) = true := by
            rw [← hfe]
            exact fileExistsAt_of_mem hf
          rw [hroot] at hfx
          exact absurd hfx (by simp)
        · have hfx : fileExistsAt st f.1 = true := fileExistsAt_of_mem hf
          rw [hnp f.1 (mem_prefixesOf_of f.1 newp hx hfe)] at hfx
          exact absurd hfx (by simp)
    have hdir1 : is_path_exist (makedirs st newp)
        (makedirs st newp).config.backup_destination = PathKind.directory := by
      rw [is_path_exist_dir_iff]
      rw [is_path_exist_dir_iff] at hold
      exact ⟨hold.1, isDir_makedirs_of st newp _ hold.2⟩
    have hsucc := changeDestAfterMkdir_success (makedirs st newp) newp moveOk
      hnp hunder hcons1 hsep1 hsep2 hdir1
    refine ⟨?_, hsucc.2.1, hsucc.2.2⟩
    rw [hsucc.1]
    show (st.checksums.map fun _ => ([] : ChecksumMap)) = some []
    rw [hm]
    rfl

/-- The concrete state for the C7 witness: destination /bk containing one
file, a nonempty checksum document, new destination /nb. -/
def stC7 : SysState :=
  { dirs := [["bk"]], files := [(["bk", "a"], "x")],
    checksums := some [(["f"], "d")], config := ⟨300, ["bk"], []⟩ }

/-- C7 witness: the successful migration applied at the concrete state,
every hypothesis discharged by evaluation. -/
theorem C7_change_destination_success_witness :
    (change_backup_destination stC7 ["nb"] fun _ => true).checksums = some [] ∧
    is_path_exist (change_backup_destination stC7 ["nb"] fun _ => true)
      stC7.config.backup_destination = PathKind.notExists ∧
    (change_backup_destination stC7 ["nb"] fun _ => true).config.backup_destination =
      ["nb"] :=
  C7_change_destination_success stC7 ["nb"] (fun _ => true)
    (by decide) (by decide) (by decide) (by decide) (by decide)
    (by decide) (by decide) (by decide) rfl

/-- The contrast state for C9: a destination /bk that change_destination,
unlike clear_destination, removes from disk outright. -/
def stC9c : SysState :=
  { dirs := [["bk"]], files := [],
    checksums := some [], config := ⟨300, ["bk"], []⟩ }

/-- C9: clear_destination deletes exactly the contents of the configured
destination — every file and every subdirectory strictly inside it goes,
everything outside it stays — while the destination directory itself
survives, the checksum document becomes an empty mapping, and the config
is untouched; by contrast change_destination (shown on a concrete state)
removes the old destination directory itself. -/
theorem C9_clear_destination_frame (st : SysState)
    (hbd : is_path_exist st st.config.backup_destination = PathKind.directory)
    (hck : st.checksums.isSome = true) :
    (∀ f ∈ (clear_backup_folder st).files,
      strictUnder st.config.backup_destination f.1 = false) ∧
    (∀ d ∈ (clear_backup_folder st).dirs,
      strictUnder st.config.backup_destination d = false) ∧
    isDir (clear_backup_folder st) st.config.backup_destination = true ∧
    (clear_backup_folder st).checksums = some [] ∧
    (clear_backup_folder st).config = st.config ∧
    (∀ f ∈ st.files, strictUnder st.config.backup_destination f.1 = false →
      f ∈ (clear_backup_folder st).files) ∧
    (∀ d ∈ st.dirs, strictUnder st.config.backup_destination d = false →
      d ∈ (clear_backup_folder st).dirs) ∧
    is_path_exist (change_backup_destination stC9c ["nb"] fun _ => true)
      stC9c.config.backup_destination = PathKind.notExists := by
  obtain ⟨m, hm⟩ := Option.isSome_iff_exists.mp hck
  have hne : ¬ is_path_exist st st.config.backup_destination ≠ PathKind.directory := by
    simp [hbd]
  unfold clear_backup_folder
  rw [if_neg hne]
  refine ⟨?_, ?_, ?_, ?_, rfl, ?_, ?_, by decide⟩
  · intro f hf
    rw [List.mem_filter] at hf
    simpa using hf.2
  · intro d hd
    rw [List.mem_filter] at hd
    simpa using hd.2
  · rw [isDir_iff]
    show st.config.backup_destination ∈ st.dirs.filter _
    rw [List.mem_filter]
    refine ⟨?_, by simp [strictUnder_self]⟩
    rw [is_path_exist_dir_iff] at hbd
    exact (isDir_iff st _).mp hbd.2
  · show (st.checksums.map fun _ => ([] : ChecksumMap)) = some []
    rw [hm]
    rfl
  · intro f hf hout
    show f ∈ st.files.filter _
    rw [List.mem_filter]
    exact ⟨hf, by simp [hout]⟩
  · intro d hd hout
    show d ∈ st.dirs.filter _
    rw [List.mem_filter]
    exact ⟨hd, by simp [hout]⟩

/-- The concrete state for the C9 witness: the destination /bk holds a
file and a subdirectory; an unrelated file /u/g and its checksum entry
exist alongside. -/
def stC9 : SysState :=
  { dirs := [["bk"], ["bk", "sub"], ["u"]],
    files := [(["bk", "f"], "x"), (["u", "g"], "y")],
    checksums := some [(["u", "g"], "h")], config := ⟨300, ["bk"], []⟩ }

/-- C9 witness: the frame conditions applied at the concrete state. -/
theorem C9_clear_destination_frame_witness :
    (∀ f ∈ (clear_backup_folder stC9).files,
      strictUnder stC9.config.backup_destination f.1 = false) ∧
    (∀ d ∈ (clear_backup_folder stC9).dirs,
      strictUnder stC9.config.backup_destination d = false) ∧
    isDir (clear_backup_folder stC9) stC9.config.backup_destination = true ∧
    (clear_backup_folder stC9).checksums = some [] ∧
    (clear_backup_folder stC9).config = stC9.config ∧
    (∀ f ∈ stC9.files, strictUnder stC9.config.backup_destination f.1 = false →
      f ∈ (clear_backup_folder stC9).files) ∧
    (∀ d ∈ stC9.dirs, strictUnder stC9.config.backup_destination d = false →
      d ∈ (clear_backup_folder stC9).dirs) ∧
    is_path_exist (change_backup_destination stC9c ["nb"] fun _ => true)
      stC9c.config.backup_destination = PathKind.notExists :=
  C9_clear_destination_frame stC9 (by decide) rfl

/-! ## DaemonController stop (src/main.py: stop_daemon lines 369-385) -/

/-- The state stop_daemon touches: the PID-marker file at
/tmp/backupd.pid (some pid when present, as written by start_daemon) and
the terminate signals delivered so far. -/
structure DaemonState where
  pidfile : Option Nat
  sigsSent : List Nat
deriving DecidableEq

/-- stop_daemon (src/main.py lines 369-385): when the marker file is
absent, warn and do nothing; when present, send SIGTERM to the pid it
contains — an OSError from os.kill (killOk false) is caught and only
logged — and then remove the marker file unconditionally. -/
def stop_daemon (killOk : Nat → Bool) (st : DaemonState) : DaemonState :=
  match st.pidfile with
  | none => st
  | some pid =>
      let _ := killOk pid
      { pidfile := none, sigsSent := st.sigsSent ++ [pid] }

/-- C8: with no PID-marker file, stop is a no-op; with a marker file
present, the terminate signal is dispatched to the pid it contains and
the marker is removed, and the outcome is the same whether or not signal
delivery succeeded. -/
theorem C8_stop_daemon (killOk : Nat → Bool) (st : DaemonState) :
    (st.pidfile = none → stop_daemon killOk st = st) ∧
    (∀ pid, st.pidfile = some pid →
      stop_daemon killOk st =
        { pidfile := none, sigsSent := st.sigsSent ++ [pid] }) ∧
    (∀ killOk2, stop_daemon killOk st = stop_daemon killOk2 st) := by
  refine ⟨fun h => ?_, fun pid h => ?_, fun k2 => rfl⟩
  · simp [stop_daemon, h]
  · simp [stop_daemon, h]

/-- C8 witness: a failing kill (killOk false) still removes the marker
and records the signal dispatch to pid 42. -/
theorem C8_stop_daemon_witness :
    stop_daemon (fun _ => false) { pidfile := some 42, sigsSent := [] } =
      { pidfile := none, sigsSent := [42] } :=
  (C8_stop_daemon (fun _ => false) { pidfile := some 42, sigsSent := [] }).2.1
    42 rfl

/-- C1: a surviving path is dropped by redundancy elimination exactly when
some other surviving path is a strict filesystem ancestor of it; the result
is order-independent (it depends only on membership in the collection); and
a mere string-prefix sibling such as /var/log2 alongside /var/log is not
dropped, while a true descendant /var/log/x is. -/
theorem C1_redundancy_elimination :
    (∀ (s : List FPath) (p : FPath), p ∈ s →
      (p ∉ pre_filtered_paths s ↔
        ∃ q ∈ pre_filtered_paths s, q ≠ p ∧ q <+: p)) ∧
    (∀ (s t : List FPath) (p : FPath), (∀ x, x ∈ s ↔ x ∈ t) →
      (p ∈ pre_filtered_paths s ↔ p ∈ pre_filtered_paths t)) ∧
    ["var", "log2"] ∈ pre_filtered_paths [["var", "log"], ["var", "log2"]] ∧
    ["var", "log", "x"] ∉ pre_filtered_paths [["var", "log"], ["var", "log", "x"]] := by
  refine ⟨?_, ?_, by decide, by decide⟩
  · intro s p hp
    constructor
    · intro hdrop
      have : ¬ ∀ q ∈ s, q ≠ p → ¬ q <+: p := by
        intro hall
        exact hdrop ((mem_pre_filtered p s).mpr ⟨hp, hall⟩)
      push_neg at this
      obtain ⟨q, hqs, hqne, hqpre⟩ := this
      exact exists_surviving_ancestor s p q hqs hqne hqpre
    · rintro ⟨q, hq, hqne, hqpre⟩ hmem
      have hqs : q ∈ s := ((mem_pre_filtered q s).mp hq).1
      exact ((mem_pre_filtered p s).mp hmem).2 q hqs hqne hqpre
  · intro s t p hst
    simp only [mem_pre_filtered]
    constructor
    · rintro ⟨hp, hall⟩
      exact ⟨(hst p).mp hp, fun q hq => hall q ((hst q).mpr hq)⟩
    · rintro ⟨hp, hall⟩
      exact ⟨(hst p).mpr hp, fun q hq => hall q ((hst q).mp hq)⟩

/-- C1 witness: the characterisation applied at a concrete collection, with
the membership hypothesis discharged by evaluation. -/
theorem C1_redundancy_elimination_witness :
    ["var", "log", "x"] ∉
        pre_filtered_paths [["var", "log"], ["var", "log", "x"]] ↔
      ∃ q ∈ pre_filtered_paths [["var", "log"], ["var", "log", "x"]],
        q ≠ ["var", "log", "x"] ∧ q <+: ["var", "log", "x"] :=
  C1_redundancy_elimination.1 [["var", "log"], ["var", "log", "x"]]
    ["var", "log", "x"] (by decide)

end Backupd
